import Mathlib

/-!
# tsh: job table, reaper and bg/fg commands

A shallow embedding of the job-control core of `tsh.c` (a tiny shell with job
control) and theorems about it.

Conventions of the embedding:

* C `int` / `pid_t` values are `Int`.  The only arithmetic the program does on
  them is `nextjid++` and `maxjid(jobs)+1`; signed overflow is undefined
  behaviour in C, so the embedding describes the defined executions.
* The global array `jobs[MAXJOBS]` is a function `Fin MAXJOBS → job_t`; a
  pointer `struct job_t *` into it is an index `Fin MAXJOBS`, `NULL` is `none`.
* The globals `jobs`, `nextjid`, `verbose` are fields of `State`; what the
  program writes to stdout and the calls it makes to `kill(2)` are recorded in
  the fields `out` and `kills`; `exit(n)` sets `exited := some n`.
* C strings are `String`; `printf` with `%d` is `toString` of the `Int`.
-/

namespace Tsh

/-! ## Constants -/

/-- Constant `MAXJOBS`: max jobs at any point in time. -/
abbrev MAXJOBS : Nat := 16

/-- Job state `UNDEF`. -/
def UNDEF : Int := 0
/-- Job state `FG`: running in foreground. -/
def FG : Int := 1
/-- Job state `BG`: running in background. -/
def BG : Int := 2
/-- Job state `ST`: stopped. -/
def ST : Int := 3

/-- Signal number of `SIGCONT` from `<signal.h>` (Linux value). -/
def SIGCONT : Int := 18

/-! ## Data model -/

/-- The job struct `struct job_t`. -/
structure job_t where
  /-- job PID -/
  pid : Int
  /-- job ID [1, 2, ...] -/
  jid : Int
  /-- UNDEF, BG, FG, or ST -/
  state : Int
  /-- command line -/
  cmdline : String
  deriving DecidableEq, Repr

/-- The global variables of the shell together with its observable effects. -/
structure State where
  /-- The job list `jobs[MAXJOBS]`. -/
  jobs : Fin MAXJOBS → job_t
  /-- Global `nextjid`: next job ID to allocate. -/
  nextjid : Int
  /-- Global `verbose`: if true, print additional output. -/
  verbose : Int
  /-- Everything written to stdout so far, one entry per `printf`. -/
  out : List String
  /-- The `kill(pid, sig)` system calls made so far, as `(pid, sig)`. -/
  kills : List (Int × Int)
  /-- Set to `some n` once the shell has called `exit(n)`. -/
  exited : Option Int
  /-- The text `strerror(errno)` of the last failed system call. -/
  errstr : String

/-! ## Job list helper routines -/

/-- The source function `clearjob`: clear the entries in a job struct. -/
def clearjob (_job : job_t) : job_t :=
  { pid := 0, jid := 0, state := UNDEF, cmdline := "" }

/-- The source function `initjobs`: `for (i = 0; i < MAXJOBS; i++) clearjob(&jobs[i])`. -/
def initjobs (jobs : Fin MAXJOBS → job_t) : Fin MAXJOBS → job_t :=
  fun i => clearjob (jobs i)

/-- The scanning loop shared by the helper routines,
`for (i = start; i < MAXJOBS; i++) if (c(jobs[i])) return &jobs[i];`
with `n` iterations left; `none` when the loop falls through. -/
def firstSlotFrom (c : job_t → Bool) (jobs : Fin MAXJOBS → job_t) :
    Nat → Nat → Option (Fin MAXJOBS)
  | 0, _ => none
  | n + 1, i =>
    if h : i < MAXJOBS then
      if c (jobs ⟨i, h⟩) then some ⟨i, h⟩ else firstSlotFrom c jobs n (i + 1)
    else none

/-- The loop `for (i = 0; i < MAXJOBS; i++) if (c(jobs[i])) return &jobs[i];`. -/
def firstSlot (c : job_t → Bool) (jobs : Fin MAXJOBS → job_t) : Option (Fin MAXJOBS) :=
  firstSlotFrom c jobs MAXJOBS 0

/-- The loop of `maxjid` from slot `i` on, with `n` iterations left:
`if (jobs[i].jid > max) max = jobs[i].jid;`. -/
def maxjidFrom (jobs : Fin MAXJOBS → job_t) : Nat → Nat → Int → Int
  | 0, _, max => max
  | n + 1, i, max =>
    if h : i < MAXJOBS then
      maxjidFrom jobs n (i + 1) (if (jobs ⟨i, h⟩).jid > max then (jobs ⟨i, h⟩).jid else max)
    else max

/-- The source function `maxjid`: returns largest allocated job ID. -/
def maxjid (jobs : Fin MAXJOBS → job_t) : Int :=
  maxjidFrom jobs MAXJOBS 0 0

/-- The source function `addjob`: add a job to the job list.  Returns the new
state and the C return value. -/
def addjob (s : State) (pid : Int) (state : Int) (cmdline : String) : State × Int :=
  if pid < 1 then (s, 0)
  else
    match firstSlot (fun j => j.pid == 0) s.jobs with
    | some i =>
      let jid := s.nextjid
      let nextjid := s.nextjid + 1
      let nextjid := if nextjid > (MAXJOBS : Int) then 1 else nextjid
      let job : job_t := { pid := pid, jid := jid, state := state, cmdline := cmdline }
      let out :=
        if s.verbose ≠ 0 then
          s.out ++ ["Added job [" ++ toString jid ++ "] " ++ toString pid ++ " " ++ cmdline ++ "\n"]
        else s.out
      ({ s with jobs := Function.update s.jobs i job, nextjid := nextjid, out := out }, 1)
    | none => ({ s with out := s.out ++ ["Tried to create too many jobs\n"] }, 0)

/-- The source function `deletejob`: delete a job whose PID=pid from the job
list.  Returns the new state and the C return value. -/
def deletejob (s : State) (pid : Int) : State × Int :=
  if pid < 1 then (s, 0)
  else
    match firstSlot (fun j => j.pid == pid) s.jobs with
    | some i =>
      let jobs := Function.update s.jobs i (clearjob (s.jobs i))
      ({ s with jobs := jobs, nextjid := maxjid jobs + 1 }, 1)
    | none => (s, 0)

/-- The source function `fgpid`: return PID of current foreground job, 0 if no such job. -/
def fgpid (jobs : Fin MAXJOBS → job_t) : Int :=
  match firstSlot (fun j => j.state == FG) jobs with
  | some i => (jobs i).pid
  | none => 0

/-- The source function `getjobpid`: find a job (by PID) on the job list. -/
def getjobpid (jobs : Fin MAXJOBS → job_t) (pid : Int) : Option (Fin MAXJOBS) :=
  if pid < 1 then none
  else firstSlot (fun j => j.pid == pid) jobs

/-- The source function `getjobjid`: find a job (by JID) on the job list. -/
def getjobjid (jobs : Fin MAXJOBS → job_t) (jid : Int) : Option (Fin MAXJOBS) :=
  if jid < 1 then none
  else firstSlot (fun j => j.jid == jid) jobs

/-- The state in which `main` enters its read/eval loop: the zero-initialised
global array after `initjobs(jobs)`, `nextjid = 1`, nothing printed yet. -/
def initState (verbose : Int) : State :=
  { jobs := initjobs (fun _ => { pid := 0, jid := 0, state := 0, cmdline := "" }),
    nextjid := 1, verbose := verbose, out := [], kills := [], exited := none, errstr := "" }

/-! ## Other helper routines -/

/-- The source function `unix_error`: unix-style error routine, prints and calls `exit(1)`. -/
def unix_error (s : State) (msg : String) : State :=
  { s with out := s.out ++ [msg ++ ": " ++ s.errstr ++ "\n"], exited := some 1 }

/-- The source function `Kill`: wrapper for `kill(2)`.  `ret` is the value the
system call returns and `err` the text of the `errno` it sets on failure. -/
def Kill (s : State) (pid : Int) (signal : Int) (ret : Int) (err : String) : State :=
  let s := { s with kills := s.kills ++ [(pid, signal)] }
  if ret < 0 then unix_error { s with errstr := err } "Fatal: Kill Error!" else s

/-! ## The reaper -/

/-- What the `<sys/wait.h>` macros report about a status returned by `waitpid`:
`WIFSTOPPED` with `WSTOPSIG`, `WIFSIGNALED` with `WTERMSIG`, `WIFEXITED` with
`WEXITSTATUS`, or none of the three. -/
inductive wstatus where
  | stopped (sig : Int)
  | signaled (sig : Int)
  | exited (code : Int)
  | other
  deriving DecidableEq, Repr

/-- The source function `sigchld_handler`.  The list holds, in order, what the
successive calls `waitpid(-1, &status, WNOHANG|WUNTRACED)` return during this
invocation (child pid and status); when it is used up `waitpid` returns a
value `<= 0` and the loop ends. -/
def sigchld_handler (s : State) : List (Int × wstatus) → State
  | [] => s
  | (child_pid, status) :: rest =>
    if child_pid > 0 then
      match getjobpid s.jobs child_pid with
      | none =>
        { s with out := s.out ++ ["((" ++ toString child_pid ++ "): No such child"] }
      | some jd =>
        match status with
        | wstatus.stopped _ =>
          let jobs := Function.update s.jobs jd { s.jobs jd with state := ST }
          let s := { s with jobs := jobs }
          let s := { s with out := s.out ++ ["Job [" ++ toString (s.jobs jd).jid ++ "] ("
            ++ toString child_pid ++ ") stopped by signal 20\n"] }
          sigchld_handler s rest
        | wstatus.signaled _ =>
          let s := (deletejob s child_pid).1
          let s := { s with out := s.out ++ ["Job [" ++ toString (s.jobs jd).jid ++ "] ("
            ++ toString child_pid ++ ") terminated by signal 2\n"] }
          sigchld_handler s rest
        | wstatus.exited _ =>
          let s := (deletejob s child_pid).1
          sigchld_handler s rest
        | wstatus.other => unix_error s "waitpid error"
    else s

/-! ## The builtin bg and fg commands -/

/-- The character `s[i]` of a C string, `'\0'` at and past its end. -/
def cAt (s : String) (i : Nat) : Char :=
  s.data.getD i (Char.ofNat 0)

/-- The libc function `isdigit` (C locale). -/
def isdigit (c : Char) : Bool :=
  decide ('0' ≤ c ∧ c ≤ '9')

/-- The libc function `isspace` (C locale). -/
def isspace (c : Char) : Bool :=
  c == ' ' || (9 ≤ c.toNat && c.toNat ≤ 13)

/-- The value of the longest prefix of decimal digits, continuing from `acc`. -/
def digitsValue : List Char → Nat → Nat
  | [], acc => acc
  | c :: cs, acc => if isdigit c then digitsValue cs (acc * 10 + (c.toNat - 48)) else acc

/-- The libc function `atoi` as glibc implements it, `(int) strtol(s, NULL, 10)`:
skip white space, read an optional sign and the decimal digits, saturate to
the range of `long` and truncate to 32 bits. -/
def atoi (s : String) : Int :=
  let cs := s.data.dropWhile isspace
  let v : Int :=
    match cs with
    | '-' :: ds => max (-(digitsValue ds 0 : Int)) (-(2 ^ 63))
    | '+' :: ds => min (digitsValue ds 0 : Int) (2 ^ 63 - 1)
    | ds => min (digitsValue ds 0 : Int) (2 ^ 63 - 1)
  (v + 2 ^ 31) % 2 ^ 32 - 2 ^ 31

/-- The loop condition of the source function `waitfg`: `waitfg(pid)` returns
at once when `getjobpid` finds no job, and otherwise sleeps as long as
`fg_job->pid == pid && fg_job->state == FG`; it only reads the job list. -/
def waitfg_blocks (jobs : Fin MAXJOBS → job_t) (pid : Int) : Bool :=
  match getjobpid jobs pid with
  | none => false
  | some fg_job => (jobs fg_job).pid == pid && (jobs fg_job).state == FG

/-- The tail of `do_bgfg` once the job `jd` has been found: `Kill(-jd->pid,
SIGCONT)`, which does not return when `kill` fails, then the state change and
for `bg` the announcement.  For `fg` the result is the state in which
`waitfg(jd->pid)` is entered. -/
def do_bgfg_resume (s : State) (cmd : String) (jd : Fin MAXJOBS)
    (killret : Int) (killerr : String) : State :=
  let s := Kill s (-(s.jobs jd).pid) SIGCONT killret killerr
  if killret < 0 then s
  else if cmd == "bg" then
    let s := { s with jobs := Function.update s.jobs jd { s.jobs jd with state := BG } }
    { s with out := s.out ++ ["[" ++ toString (s.jobs jd).jid ++ "] ("
        ++ toString (s.jobs jd).pid ++ ") " ++ (s.jobs jd).cmdline] }
  else
    { s with jobs := Function.update s.jobs jd { s.jobs jd with state := FG } }

/-- The source function `do_bgfg`: execute the builtin bg and fg commands.
`argv` is the argument vector up to its terminating `NULL`; `killret` and
`killerr` are the result of the `kill(2)` call it may make. -/
def do_bgfg (s : State) (argv : List String) (killret : Int) (killerr : String) : State :=
  match argv with
  | [] => s
  | [cmd] => { s with out := s.out ++ [cmd ++ " command requires PID or %jobid argument\n"] }
  | cmd :: arg :: _ =>
    if cAt arg 0 == '%' then
      if !isdigit (cAt arg 1) then
        { s with out := s.out ++ [cmd ++ ": argument must be a pid or %jobid\n"] }
      else
        let jid := atoi (arg.drop 1)
        match getjobjid s.jobs jid with
        | none => { s with out := s.out ++ [arg ++ ": no such job\n"] }
        | some jd => do_bgfg_resume s cmd jd killret killerr
    else
      if !isdigit (cAt arg 0) then
        { s with out := s.out ++ [cmd ++ ": argument must be a pid or %jobid\n"] }
      else
        let pid := atoi arg
        match getjobpid s.jobs pid with
        | none => { s with out := s.out ++ ["(" ++ arg ++ "): no such process\n"] }
        | some jd => do_bgfg_resume s cmd jd killret killerr

/-! ## Sequences of job-list calls -/

/-- One call on the job list: `addjob(jobs, pid, state, cmdline)` or
`deletejob(jobs, pid)`. -/
inductive Call where
  | add (pid : Int) (state : Int) (cmdline : String)
  | del (pid : Int)
  deriving DecidableEq, Repr

/-- The state after one call. -/
def Call.run (s : State) : Call → State
  | Call.add pid state cmdline => (addjob s pid state cmdline).1
  | Call.del pid => (deletejob s pid).1

/-- The state after a sequence of calls. -/
def runCalls (s : State) : List Call → State
  | [] => s
  | c :: cs => runCalls (c.run s) cs

/-! ## Predicates on job tables -/

/-- The jids of the occupied slots (slots with `pid != 0`) are pairwise distinct. -/
def JidsDistinct (jobs : Fin MAXJOBS → job_t) : Prop :=
  ∀ i j : Fin MAXJOBS, (jobs i).pid ≠ 0 → (jobs j).pid ≠ 0 → (jobs i).jid = (jobs j).jid → i = j

instance (jobs : Fin MAXJOBS → job_t) : Decidable (JidsDistinct jobs) := by
  unfold JidsDistinct; infer_instance

/-- The pids of the occupied slots are pairwise distinct. -/
def PidsDistinct (jobs : Fin MAXJOBS → job_t) : Prop :=
  ∀ i j : Fin MAXJOBS, (jobs i).pid ≠ 0 → (jobs i).pid = (jobs j).pid → i = j

instance (jobs : Fin MAXJOBS → job_t) : Decidable (PidsDistinct jobs) := by
  unfold PidsDistinct; infer_instance

/-- At most one occupied slot has state `FG`. -/
def AtMostOneFG (jobs : Fin MAXJOBS → job_t) : Prop :=
  ∀ i j : Fin MAXJOBS, (jobs i).pid ≠ 0 → (jobs j).pid ≠ 0 →
    (jobs i).state = FG → (jobs j).state = FG → i = j

instance (jobs : Fin MAXJOBS → job_t) : Decidable (AtMostOneFG jobs) := by
  unfold AtMostOneFG; infer_instance

/-- No occupied slot has state `FG`. -/
def NoFG (jobs : Fin MAXJOBS → job_t) : Prop :=
  ∀ i : Fin MAXJOBS, (jobs i).pid ≠ 0 → (jobs i).state ≠ FG

instance (jobs : Fin MAXJOBS → job_t) : Decidable (NoFG jobs) := by
  unfold NoFG; infer_instance

/-- The representation invariant of the job list: a free slot (pid 0) is
cleared to jid 0 and an occupied slot holds a positive jid. -/
def TableWF (jobs : Fin MAXJOBS → job_t) : Prop :=
  ∀ i : Fin MAXJOBS, ((jobs i).pid = 0 → (jobs i).jid = 0) ∧ ((jobs i).pid ≠ 0 → 1 ≤ (jobs i).jid)

instance (jobs : Fin MAXJOBS → job_t) : Decidable (TableWF jobs) := by
  unfold TableWF; infer_instance

/-- The number `m` is the largest jid among the occupied slots, and 0 when no
slot is occupied. -/
def IsLargestLiveJid (jobs : Fin MAXJOBS → job_t) (m : Int) : Prop :=
  (∀ i : Fin MAXJOBS, (jobs i).pid ≠ 0 → (jobs i).jid ≤ m) ∧
    ((∃ i : Fin MAXJOBS, (jobs i).pid ≠ 0 ∧ (jobs i).jid = m) ∨
      ((∀ i : Fin MAXJOBS, (jobs i).pid = 0) ∧ m = 0))

instance (jobs : Fin MAXJOBS → job_t) (m : Int) : Decidable (IsLargestLiveJid jobs m) := by
  unfold IsLargestLiveJid; infer_instance

/-- Every `addjob` of the sequence, run from `s`, is given a pid `>= 1` that no
slot holds at the time of the call. -/
def freshPids (s : State) : List Call → Bool
  | [] => true
  | Call.add pid state cmdline :: cs =>
    decide (1 ≤ pid) && decide (∀ i : Fin MAXJOBS, (s.jobs i).pid ≠ pid) &&
      freshPids (addjob s pid state cmdline).1 cs
  | Call.del pid :: cs => freshPids (deletejob s pid).1 cs

/-- Every `addjob` of the sequence has a pid `>= 1` and one of the states
`FG`, `BG`, `ST`. -/
def JobCalls (cs : List Call) : Prop :=
  ∀ c ∈ cs, match c with
    | Call.add pid state _ => 1 ≤ pid ∧ (state = FG ∨ state = BG ∨ state = ST)
    | Call.del _ => True

/-- Every `addjob` of the sequence with state `FG`, run from `s`, is made when
no occupied slot has state `FG`. -/
def FgGuarded (s : State) : List Call → Prop
  | [] => True
  | Call.add pid state cmdline :: cs =>
    (state = FG → NoFG s.jobs) ∧ FgGuarded (addjob s pid state cmdline).1 cs
  | Call.del pid :: cs => FgGuarded (deletejob s pid).1 cs

/-- `FgGuarded` is decidable. -/
def FgGuarded.dec : (s : State) → (cs : List Call) → Decidable (FgGuarded s cs)
  | _, [] => isTrue trivial
  | s, Call.add pid state cmdline :: cs =>
    @instDecidableAnd _ _ inferInstance (FgGuarded.dec (addjob s pid state cmdline).1 cs)
  | s, Call.del pid :: cs => FgGuarded.dec (deletejob s pid).1 cs

instance (s : State) (cs : List Call) : Decidable (FgGuarded s cs) := FgGuarded.dec s cs

/-- Sixteen `addjob` calls that fill the table (pids 1..16), the deletion of
pids 2 and 3, and two further `addjob` calls (pids 17 and 18). -/
def wrapCalls : List Call :=
  (List.range 16).map (fun k => Call.add ((k : Int) + 1) BG "sleep 9 &\n") ++
    [Call.del 2, Call.del 3, Call.add 17 BG "sleep 9 &\n", Call.add 18 BG "sleep 9 &\n"]

/-- The table after `addjob(jobs, 5, FG, "sleep 9\n")` on the initial table:
one foreground job with pid 5 and jid 1 in slot 0. -/
def oneFgJob : State :=
  (addjob (initState 0) 5 FG "sleep 9\n").1

/-- The table after `addjob(jobs, 5, ST, "sleep 9\n")` on the initial table:
one stopped job with pid 5 and jid 1 in slot 0. -/
def oneStoppedJob : State :=
  (addjob (initState 0) 5 ST "sleep 9\n").1

/-- Two `addjob` calls with state `FG`. -/
def twoFgCalls : List Call :=
  [Call.add 1 FG "a\n", Call.add 2 FG "b\n"]

/-! ## The background branch of eval -/

/-- The background branch of the source function `eval` in the parent, once
`Fork()` has returned the child's `pid`:
`addjob(jobs, pid, BG, cmdline); jd = getjobpid(jobs, pid);
printf("[%d] (%d) %s", jd->jid, jd->pid, jd->cmdline);`.
The result is `none` when `jd` is `NULL`, where `jd->jid` dereferences a null
pointer. -/
def eval_background (s : State) (pid : Int) (cmdline : String) : Option State :=
  let s := (addjob s pid BG cmdline).1
  match getjobpid s.jobs pid with
  | none => none
  | some jd =>
    some { s with out := s.out ++ ["[" ++ toString (s.jobs jd).jid ++ "] ("
      ++ toString (s.jobs jd).pid ++ ") " ++ (s.jobs jd).cmdline] }

/-! ## Arguments of bg and fg -/

/-- The characters of a `bg`/`fg` argument after an optional leading `%`. -/
def afterPercent (arg : String) : List Char :=
  match arg.data with
  | '%' :: cs => cs
  | cs => cs

/-- A non-empty string of decimal digits. -/
def Numeric (cs : List Char) : Prop :=
  cs ≠ [] ∧ ∀ c ∈ cs, isdigit c = true

instance (cs : List Char) : Decidable (Numeric cs) := by
  unfold Numeric; infer_instance

/-- The table filled by sixteen `addjob` calls (pids 1..16, jids 1..16). -/
def fullTable : State :=
  runCalls (initState 0) (wrapCalls.take 16)

/-! ## The round trip: background job, fg, normal exit -/

/-- The state after `addjob(jobs, pid, BG, cmdline)` on the initial table
followed by the command `fg %1`. -/
def roundTripFg (verbose pid : Int) (cmdline : String) (killret : Int) (killerr : String) :
    State :=
  do_bgfg (addjob (initState verbose) pid BG cmdline).1 ["fg", "%1"] killret killerr

/-- The state after the reaper has then processed the normal exit of `pid`
with exit code `code`. -/
def roundTripExit (verbose pid : Int) (cmdline : String) (killret : Int) (killerr : String)
    (code : Int) : State :=
  sigchld_handler (roundTripFg verbose pid cmdline killret killerr) [(pid, wstatus.exited code)]

/-! ## Lemmas on the scanning loop -/

theorem firstSlotFrom_some (c : job_t → Bool) (jobs : Fin MAXJOBS → job_t) :
    ∀ (n i : Nat) (k : Fin MAXJOBS), firstSlotFrom c jobs n i = some k →
      i ≤ k.val ∧ c (jobs k) = true ∧
        ∀ j : Fin MAXJOBS, i ≤ j.val → j.val < k.val → c (jobs j) = false := by
  intro n
  induction n with
  | zero => intro i k h; simp [firstSlotFrom] at h
  | succ n ih =>
    intro i k h
    unfold firstSlotFrom at h
    split at h
    · rename_i hi
      split at h
      · rename_i hc
        cases h
        refine ⟨le_refl _, hc, ?_⟩
        intro j h1 h2
        simp only at h2
        omega
      · rename_i hc
        obtain ⟨h1, h2, h3⟩ := ih (i + 1) k h
        refine ⟨by omega, h2, ?_⟩
        intro j hj1 hj2
        by_cases hji : j.val = i
        · have : j = ⟨i, hi⟩ := Fin.ext hji
          subst this
          simpa using hc
        · exact h3 j (by omega) hj2
    · cases h

theorem firstSlotFrom_none (c : job_t → Bool) (jobs : Fin MAXJOBS → job_t) :
    ∀ (n i : Nat), firstSlotFrom c jobs n i = none →
      ∀ j : Fin MAXJOBS, i ≤ j.val → j.val < i + n → c (jobs j) = false := by
  intro n
  induction n with
  | zero => intro i _ j h1 h2; omega
  | succ n ih =>
    intro i h j h1 h2
    unfold firstSlotFrom at h
    split at h
    · rename_i hi
      split at h
      · cases h
      · rename_i hc
        by_cases hji : j.val = i
        · have : j = ⟨i, hi⟩ := Fin.ext hji
          subst this
          simpa using hc
        · exact ih (i + 1) h j (by omega) (by omega)
    · have := j.isLt
      omega

theorem firstSlot_some {c : job_t → Bool} {jobs : Fin MAXJOBS → job_t} {k : Fin MAXJOBS}
    (h : firstSlot c jobs = some k) :
    c (jobs k) = true ∧ ∀ j : Fin MAXJOBS, j < k → c (jobs j) = false := by
  obtain ⟨_, h2, h3⟩ := firstSlotFrom_some c jobs MAXJOBS 0 k h
  exact ⟨h2, fun j hj => h3 j (Nat.zero_le _) hj⟩

theorem firstSlot_none {c : job_t → Bool} {jobs : Fin MAXJOBS → job_t}
    (h : firstSlot c jobs = none) (j : Fin MAXJOBS) : c (jobs j) = false :=
  firstSlotFrom_none c jobs MAXJOBS 0 h j (Nat.zero_le _) (by have := j.isLt; omega)

theorem firstSlot_exists {c : job_t → Bool} {jobs : Fin MAXJOBS → job_t}
    (h : ∃ j, c (jobs j) = true) : ∃ k, firstSlot c jobs = some k := by
  cases hk : firstSlot c jobs with
  | some k => exact ⟨k, rfl⟩
  | none =>
    obtain ⟨j, hj⟩ := h
    rw [firstSlot_none hk j] at hj
    cases hj

/-! ## addjob -/

/-- Claim C3: on a job table with a free slot and for `pid >= 1`, `addjob`
returns 1, writes pid, state, command line and `jid = nextjid` (the value
before the call) into the lowest-index free slot, leaves every other slot
unchanged, and sets `nextjid` to its old value plus 1, or to 1 when that
value exceeds `MAXJOBS`. -/
theorem addjob_free_slot (s : State) (pid state : Int) (cmdline : String)
    (hfree : ∃ i, (s.jobs i).pid = 0) (hpid : 1 ≤ pid) :
    ∃ i : Fin MAXJOBS,
      (s.jobs i).pid = 0 ∧ (∀ j : Fin MAXJOBS, j < i → (s.jobs j).pid ≠ 0) ∧
      (addjob s pid state cmdline).2 = 1 ∧
      (addjob s pid state cmdline).1.jobs i =
        { pid := pid, jid := s.nextjid, state := state, cmdline := cmdline } ∧
      (∀ j : Fin MAXJOBS, j ≠ i → (addjob s pid state cmdline).1.jobs j = s.jobs j) ∧
      (addjob s pid state cmdline).1.nextjid =
        (if s.nextjid + 1 > 16 then 1 else s.nextjid + 1) := by
  obtain ⟨i, hi⟩ := @firstSlot_exists (fun j => j.pid == 0) s.jobs
    (by obtain ⟨i, hi⟩ := hfree; exact ⟨i, by simp [hi]⟩)
  obtain ⟨h1, h2⟩ := firstSlot_some hi
  refine ⟨i, by simpa using h1, fun j hj => by simpa using h2 j hj, ?_⟩
  have hp : ¬ pid < 1 := by omega
  simp only [addjob, hp, if_false, hi]
  refine ⟨trivial, by simp, fun j hj => by simp [Function.update_noteq hj], by simp⟩

/-- Witness for `addjob_free_slot` on the initial table. -/
theorem addjob_free_slot_witness :
    ∃ i : Fin MAXJOBS,
      ((initState 0).jobs i).pid = 0 ∧ (∀ j : Fin MAXJOBS, j < i → ((initState 0).jobs j).pid ≠ 0) ∧
      (addjob (initState 0) 7 BG "ls &").2 = 1 ∧
      (addjob (initState 0) 7 BG "ls &").1.jobs i =
        { pid := 7, jid := (initState 0).nextjid, state := BG, cmdline := "ls &" } ∧
      (∀ j : Fin MAXJOBS, j ≠ i → (addjob (initState 0) 7 BG "ls &").1.jobs j = (initState 0).jobs j) ∧
      (addjob (initState 0) 7 BG "ls &").1.nextjid =
        (if (initState 0).nextjid + 1 > 16 then 1 else (initState 0).nextjid + 1) :=
  addjob_free_slot (initState 0) 7 BG "ls &" ⟨0, by decide⟩ (by decide)

/-- Claim C4: on a full job table (no slot has pid 0) `addjob` returns 0 and
leaves every slot and `nextjid` as they were, whatever pid, state and command
line it is given. -/
theorem addjob_full (s : State) (pid state : Int) (cmdline : String)
    (hfull : ∀ i, (s.jobs i).pid ≠ 0) :
    (addjob s pid state cmdline).2 = 0 ∧
      (addjob s pid state cmdline).1.jobs = s.jobs ∧
      (addjob s pid state cmdline).1.nextjid = s.nextjid := by
  unfold addjob
  split
  · exact ⟨rfl, rfl, rfl⟩
  · cases hk : firstSlot (fun j => j.pid == 0) s.jobs with
    | none => exact ⟨rfl, rfl, rfl⟩
    | some k =>
      have := (firstSlot_some hk).1
      simp at this
      exact absurd this (hfull k)

set_option maxRecDepth 100000 in
/-- Witness for `addjob_full`: a seventeenth job offered to the table filled by
sixteen `addjob` calls. -/
theorem addjob_full_witness :
    (∀ i, ((runCalls (initState 0) (wrapCalls.take 16)).jobs i).pid ≠ 0) ∧
      (addjob (runCalls (initState 0) (wrapCalls.take 16)) 17 BG "ls &\n").2 = 0 ∧
      (addjob (runCalls (initState 0) (wrapCalls.take 16)) 17 BG "ls &\n").1.jobs =
        (runCalls (initState 0) (wrapCalls.take 16)).jobs ∧
      (addjob (runCalls (initState 0) (wrapCalls.take 16)) 17 BG "ls &\n").1.nextjid =
        (runCalls (initState 0) (wrapCalls.take 16)).nextjid :=
  have hfull : ∀ i, ((runCalls (initState 0) (wrapCalls.take 16)).jobs i).pid ≠ 0 := by decide
  ⟨hfull, addjob_full _ 17 BG "ls &\n" hfull⟩

/-! ## Shape of the results of addjob and deletejob -/

theorem addjob_jobs_cases (s : State) (pid state : Int) (cmdline : String) :
    (addjob s pid state cmdline).1.jobs = s.jobs ∨
      ∃ i : Fin MAXJOBS, (s.jobs i).pid = 0 ∧ 1 ≤ pid ∧
        (addjob s pid state cmdline).1.jobs = Function.update s.jobs i
          { pid := pid, jid := s.nextjid, state := state, cmdline := cmdline } := by
  unfold addjob
  split
  · exact Or.inl rfl
  · rename_i hp
    cases hk : firstSlot (fun j => j.pid == 0) s.jobs with
    | none => exact Or.inl rfl
    | some k =>
      refine Or.inr ⟨k, by simpa using (firstSlot_some hk).1, by omega, rfl⟩

theorem getjobpid_some {jobs : Fin MAXJOBS → job_t} {pid : Int} {i : Fin MAXJOBS}
    (h : getjobpid jobs pid = some i) :
    1 ≤ pid ∧ (jobs i).pid = pid ∧ ∀ j : Fin MAXJOBS, j < i → (jobs j).pid ≠ pid := by
  unfold getjobpid at h
  split at h
  · cases h
  · obtain ⟨h1, h2⟩ := firstSlot_some h
    exact ⟨by omega, by simpa using h1, fun j hj => by simpa using h2 j hj⟩

theorem getjobpid_none {jobs : Fin MAXJOBS → job_t} {pid : Int}
    (h : getjobpid jobs pid = none) :
    pid < 1 ∨ ∀ j : Fin MAXJOBS, (jobs j).pid ≠ pid := by
  unfold getjobpid at h
  split at h
  · rename_i hp; exact Or.inl hp
  · exact Or.inr (fun j => by simpa using firstSlot_none h j)

theorem getjobpid_of_slot {jobs : Fin MAXJOBS → job_t} {pid : Int} (hp : 1 ≤ pid)
    (i : Fin MAXJOBS) (hi : (jobs i).pid = pid) : ∃ k, getjobpid jobs pid = some k := by
  cases hk : getjobpid jobs pid with
  | some k => exact ⟨k, rfl⟩
  | none =>
    rcases getjobpid_none hk with h | h
    · omega
    · exact absurd hi (h i)

/-- The source function `deletejob` clears the slot that `getjobpid` finds. -/
theorem deletejob_eq (s : State) (pid : Int) :
    deletejob s pid =
      match getjobpid s.jobs pid with
      | none => (s, 0)
      | some i =>
        ({ s with jobs := Function.update s.jobs i (clearjob (s.jobs i)),
                  nextjid := maxjid (Function.update s.jobs i (clearjob (s.jobs i))) + 1 }, 1) := by
  unfold deletejob getjobpid
  split
  · rfl
  · cases firstSlot (fun j => j.pid == pid) s.jobs <;> rfl

theorem deletejob_jobs_cases (s : State) (pid : Int) :
    (deletejob s pid).1.jobs = s.jobs ∨
      ∃ i : Fin MAXJOBS, (s.jobs i).pid = pid ∧ 1 ≤ pid ∧
        (deletejob s pid).1.jobs = Function.update s.jobs i (clearjob (s.jobs i)) := by
  rw [deletejob_eq]
  cases hk : getjobpid s.jobs pid with
  | none => exact Or.inl rfl
  | some k =>
    obtain ⟨h1, h2, _⟩ := getjobpid_some hk
    exact Or.inr ⟨k, h2, h1, rfl⟩

/-! ## At most one foreground job -/

theorem atMostOneFG_addjob (s : State) (pid state : Int) (cmdline : String)
    (hinv : AtMostOneFG s.jobs) (hg : state = FG → NoFG s.jobs) :
    AtMostOneFG (addjob s pid state cmdline).1.jobs := by
  rcases addjob_jobs_cases s pid state cmdline with h | ⟨i, hi, _, h⟩
  · rw [h]; exact hinv
  · rw [h]
    intro a b ha hb hsa hsb
    by_cases hai : a = i <;> by_cases hbi : b = i
    · rw [hai, hbi]
    · subst hai
      simp only [Function.update_same, Function.update_noteq hbi] at ha hb hsa hsb
      exact absurd hsb (hg hsa b hb)
    · subst hbi
      simp only [Function.update_same, Function.update_noteq hai] at ha hb hsa hsb
      exact absurd hsa (hg hsb a ha)
    · simp only [Function.update_noteq hai, Function.update_noteq hbi] at ha hb hsa hsb
      exact hinv a b ha hb hsa hsb

theorem atMostOneFG_deletejob (s : State) (pid : Int) (hinv : AtMostOneFG s.jobs) :
    AtMostOneFG (deletejob s pid).1.jobs := by
  rcases deletejob_jobs_cases s pid with h | ⟨i, _, _, h⟩
  · rw [h]; exact hinv
  · rw [h]
    intro a b ha hb hsa hsb
    by_cases hai : a = i
    · subst hai
      simp [clearjob] at ha
    · by_cases hbi : b = i
      · subst hbi
        simp [clearjob] at hb
      · simp only [Function.update_noteq hai, Function.update_noteq hbi] at ha hb hsa hsb
        exact hinv a b ha hb hsa hsb

theorem atMostOneFG_runCalls (cs : List Call) :
    ∀ s : State, AtMostOneFG s.jobs → FgGuarded s cs → AtMostOneFG (runCalls s cs).jobs := by
  induction cs with
  | nil => intro s h _; exact h
  | cons c cs ih =>
    intro s h hg
    cases c with
    | add pid state cmdline =>
      exact ih _ (atMostOneFG_addjob s pid state cmdline h hg.1) hg.2
    | del pid =>
      exact ih _ (atMostOneFG_deletejob s pid h) hg

theorem fgGuarded_take (cs : List Call) :
    ∀ (s : State) (k : Nat), FgGuarded s cs → FgGuarded s (cs.take k) := by
  induction cs with
  | nil => intro s k h; simpa using h
  | cons c cs ih =>
    intro s k h
    cases k with
    | zero => trivial
    | succ k =>
      cases c with
      | add pid state cmdline => exact ⟨h.1, ih _ k h.2⟩
      | del pid => exact ih _ k h

/-! ## deletejob -/

theorem maxjidFrom_ge_init (jobs : Fin MAXJOBS → job_t) :
    ∀ (n i : Nat) (m : Int), m ≤ maxjidFrom jobs n i m := by
  intro n
  induction n with
  | zero => intro i m; simp [maxjidFrom]
  | succ n ih =>
    intro i m
    unfold maxjidFrom
    split
    · refine le_trans ?_ (ih _ _)
      split <;> omega
    · exact le_refl _

theorem maxjidFrom_ge (jobs : Fin MAXJOBS → job_t) :
    ∀ (n i : Nat) (m : Int) (j : Fin MAXJOBS), i ≤ j.val → j.val < i + n →
      (jobs j).jid ≤ maxjidFrom jobs n i m := by
  intro n
  induction n with
  | zero => intro i m j h1 h2; omega
  | succ n ih =>
    intro i m j h1 h2
    unfold maxjidFrom
    split
    · rename_i hi
      by_cases hji : j.val = i
      · have hj : j = ⟨i, hi⟩ := Fin.ext hji
        subst hj
        refine le_trans ?_ (maxjidFrom_ge_init jobs _ _ _)
        split <;> omega
      · exact ih _ _ j (by omega) (by omega)
    · have := j.isLt
      omega

theorem maxjidFrom_attained (jobs : Fin MAXJOBS → job_t) :
    ∀ (n i : Nat) (m : Int), maxjidFrom jobs n i m = m ∨
      ∃ j : Fin MAXJOBS, (jobs j).jid = maxjidFrom jobs n i m := by
  intro n
  induction n with
  | zero => intro i m; exact Or.inl rfl
  | succ n ih =>
    intro i m
    unfold maxjidFrom
    split
    · rename_i hi
      rcases ih (i + 1) (if (jobs ⟨i, hi⟩).jid > m then (jobs ⟨i, hi⟩).jid else m) with h | h
      · rw [h]
        split
        · exact Or.inr ⟨⟨i, hi⟩, rfl⟩
        · exact Or.inl rfl
      · exact Or.inr h
    · exact Or.inl rfl

theorem maxjid_ge (jobs : Fin MAXJOBS → job_t) (j : Fin MAXJOBS) : (jobs j).jid ≤ maxjid jobs :=
  maxjidFrom_ge jobs MAXJOBS 0 0 j (Nat.zero_le _) (by have := j.isLt; omega)

theorem maxjid_nonneg (jobs : Fin MAXJOBS → job_t) : 0 ≤ maxjid jobs :=
  maxjidFrom_ge_init jobs MAXJOBS 0 0

theorem maxjid_attained (jobs : Fin MAXJOBS → job_t) :
    maxjid jobs = 0 ∨ ∃ j : Fin MAXJOBS, (jobs j).jid = maxjid jobs :=
  maxjidFrom_attained jobs MAXJOBS 0 0

/-- On a well-formed table `maxjid` is the largest jid among the occupied slots. -/
theorem maxjid_isLargest (jobs : Fin MAXJOBS → job_t) (hwf : TableWF jobs) :
    IsLargestLiveJid jobs (maxjid jobs) := by
  refine ⟨fun i _ => maxjid_ge jobs i, ?_⟩
  have hzero : maxjid jobs = 0 →
      (∃ i : Fin MAXJOBS, (jobs i).pid ≠ 0 ∧ (jobs i).jid = maxjid jobs) ∨
        ((∀ i : Fin MAXJOBS, (jobs i).pid = 0) ∧ maxjid jobs = 0) := by
    intro h0
    refine Or.inr ⟨fun i => ?_, h0⟩
    by_contra hi
    have h1 := (hwf i).2 hi
    have h2 := maxjid_ge jobs i
    omega
  rcases maxjid_attained jobs with h0 | ⟨j, hj⟩
  · exact hzero h0
  · by_cases hp : (jobs j).pid = 0
    · exact hzero (by rw [← hj]; exact (hwf j).1 hp)
    · exact Or.inl ⟨j, hp, hj⟩

theorem tableWF_clear (jobs : Fin MAXJOBS → job_t) (i : Fin MAXJOBS) (hwf : TableWF jobs) :
    TableWF (Function.update jobs i (clearjob (jobs i))) := by
  intro a
  by_cases hai : a = i
  · subst hai
    simp [clearjob]
  · simpa only [Function.update_noteq hai] using hwf a

/-- Claim C5: on a job table whose occupied slots hold pairwise distinct pids,
after `deletejob(jobs, pid)` the lookup `getjobpid(jobs, pid)` returns no job,
and every slot that held a different pid is exactly as before. -/
theorem deletejob_frame (s : State) (pid : Int) (hd : PidsDistinct s.jobs) :
    getjobpid (deletejob s pid).1.jobs pid = none ∧
      ∀ i : Fin MAXJOBS, (s.jobs i).pid ≠ pid → (deletejob s pid).1.jobs i = s.jobs i := by
  rw [deletejob_eq]
  cases hk : getjobpid s.jobs pid with
  | none => exact ⟨hk, fun _ _ => rfl⟩
  | some k =>
    obtain ⟨h1, h2, _⟩ := getjobpid_some hk
    constructor
    · cases hk2 : getjobpid (Function.update s.jobs k (clearjob (s.jobs k))) pid with
      | none => rfl
      | some a =>
        exfalso
        obtain ⟨_, ha, _⟩ := getjobpid_some hk2
        by_cases hak : a = k
        · subst hak
          simp [clearjob] at ha
          omega
        · rw [Function.update_noteq hak] at ha
          exact hak (hd a k (by omega) (by rw [ha, h2]))
    · intro i hi
      have hik : i ≠ k := by
        intro h
        rw [h] at hi
        exact hi h2
      simp [Function.update_noteq hik]

/-- Three jobs in the first slots of the table (pids 5, 6, 7; jids 1, 2, 3). -/
theorem deletejob_frame_witness :
    PidsDistinct (runCalls (initState 0)
        [Call.add 5 FG "a\n", Call.add 6 BG "b &\n", Call.add 7 ST "c\n"]).jobs ∧
      (getjobpid (deletejob (runCalls (initState 0)
        [Call.add 5 FG "a\n", Call.add 6 BG "b &\n", Call.add 7 ST "c\n"]) 6).1.jobs 6 = none ∧
      ∀ i : Fin MAXJOBS, ((runCalls (initState 0)
        [Call.add 5 FG "a\n", Call.add 6 BG "b &\n", Call.add 7 ST "c\n"]).jobs i).pid ≠ 6 →
        (deletejob (runCalls (initState 0)
          [Call.add 5 FG "a\n", Call.add 6 BG "b &\n", Call.add 7 ST "c\n"]) 6).1.jobs i =
        (runCalls (initState 0)
          [Call.add 5 FG "a\n", Call.add 6 BG "b &\n", Call.add 7 ST "c\n"]).jobs i) :=
  ⟨by decide, deletejob_frame _ 6 (by decide)⟩

/-- Claim C6: `deletejob` returns 1 exactly when `pid >= 1` and some slot holds
that pid; in that case `nextjid` afterwards is 1 plus the largest jid found in
the slots of the table after the call, which on a well-formed table is the
largest jid among the slots that remain occupied, and 0 when none remains
(so `nextjid` is 1 on the emptied table); the return value is 0 otherwise,
and then the whole state, every slot and `nextjid`, is unchanged. -/
theorem deletejob_result (s : State) (pid : Int) :
    ((deletejob s pid).2 = 1 ↔ (1 ≤ pid ∧ ∃ i : Fin MAXJOBS, (s.jobs i).pid = pid)) ∧
      ((deletejob s pid).2 = 1 →
        ∃ m : Int, (∀ i : Fin MAXJOBS, ((deletejob s pid).1.jobs i).jid ≤ m) ∧
          (∃ i : Fin MAXJOBS, ((deletejob s pid).1.jobs i).jid = m) ∧
          (deletejob s pid).1.nextjid = 1 + m) ∧
      ((deletejob s pid).2 = 1 → TableWF s.jobs →
        ∃ m : Int, IsLargestLiveJid (deletejob s pid).1.jobs m ∧
          (deletejob s pid).1.nextjid = 1 + m) ∧
      ((deletejob s pid).2 = 1 ∨ (deletejob s pid).2 = 0) ∧
      ((deletejob s pid).2 = 0 → (deletejob s pid).1 = s) := by
  rw [deletejob_eq]
  cases hk : getjobpid s.jobs pid with
  | none =>
    refine ⟨⟨fun h => by simp at h, ?_⟩, fun h => by simp at h, fun h => by simp at h,
      Or.inr rfl, fun _ => rfl⟩
    rintro ⟨hp, i, hi⟩
    rcases getjobpid_none hk with h | h
    · omega
    · exact absurd hi (h i)
  | some k =>
    obtain ⟨h1, h2, _⟩ := getjobpid_some hk
    refine ⟨⟨fun _ => ⟨h1, k, h2⟩, fun _ => rfl⟩, ?_, ?_, Or.inl rfl, fun h => by simp at h⟩
    · intro _
      refine ⟨maxjid (Function.update s.jobs k (clearjob (s.jobs k))),
        fun i => maxjid_ge _ i, ?_, by simp [add_comm]⟩
      rcases maxjid_attained (Function.update s.jobs k (clearjob (s.jobs k))) with h0 | h
      · exact ⟨k, by rw [h0]; simp [clearjob]⟩
      · exact h
    · intro _ hwf
      exact ⟨_, maxjid_isLargest _ (tableWF_clear s.jobs k hwf), by simp [add_comm]⟩

/-- Witness for `deletejob_result`: deleting pid 6 from a well-formed table
holding pids 5, 6, 7 with jids 1, 2, 3. -/
theorem deletejob_result_witness :
    (deletejob (runCalls (initState 0)
        [Call.add 5 FG "a\n", Call.add 6 BG "b &\n", Call.add 7 ST "c\n"]) 6).2 = 1 ∧
      TableWF (runCalls (initState 0)
        [Call.add 5 FG "a\n", Call.add 6 BG "b &\n", Call.add 7 ST "c\n"]).jobs ∧
      ∃ m : Int, IsLargestLiveJid (deletejob (runCalls (initState 0)
          [Call.add 5 FG "a\n", Call.add 6 BG "b &\n", Call.add 7 ST "c\n"]) 6).1.jobs m ∧
        (deletejob (runCalls (initState 0)
          [Call.add 5 FG "a\n", Call.add 6 BG "b &\n", Call.add 7 ST "c\n"]) 6).1.nextjid = 1 + m :=
  ⟨by decide, by decide,
    (deletejob_result (runCalls (initState 0)
      [Call.add 5 FG "a\n", Call.add 6 BG "b &\n", Call.add 7 ST "c\n"]) 6).2.2.1
      (by decide) (by decide)⟩

/-! ## The representation invariant is kept by addjob and deletejob -/

theorem addjob_nextjid_cases (s : State) (pid state : Int) (cmdline : String) :
    (addjob s pid state cmdline).1.nextjid = s.nextjid ∨
      (addjob s pid state cmdline).1.nextjid = 1 ∨
      (addjob s pid state cmdline).1.nextjid = s.nextjid + 1 := by
  unfold addjob
  split
  · exact Or.inl rfl
  · cases firstSlot (fun j => j.pid == 0) s.jobs with
    | none => exact Or.inl rfl
    | some k =>
      simp only
      split
      · exact Or.inr (Or.inl rfl)
      · exact Or.inr (Or.inr rfl)

theorem tableWF_addjob (s : State) (pid state : Int) (cmdline : String)
    (hwf : TableWF s.jobs) (hn : 1 ≤ s.nextjid) :
    TableWF (addjob s pid state cmdline).1.jobs ∧ 1 ≤ (addjob s pid state cmdline).1.nextjid := by
  constructor
  · rcases addjob_jobs_cases s pid state cmdline with h | ⟨i, _, hp, h⟩
    · rw [h]; exact hwf
    · rw [h]
      intro a
      by_cases hai : a = i
      · subst hai
        simp only [Function.update_same]
        exact ⟨fun h0 => by omega, fun _ => hn⟩
      · simpa only [Function.update_noteq hai] using hwf a
  · rcases addjob_nextjid_cases s pid state cmdline with h | h | h <;> omega

theorem tableWF_deletejob (s : State) (pid : Int)
    (hwf : TableWF s.jobs) (hn : 1 ≤ s.nextjid) :
    TableWF (deletejob s pid).1.jobs ∧ 1 ≤ (deletejob s pid).1.nextjid := by
  rw [deletejob_eq]
  cases getjobpid s.jobs pid with
  | none => exact ⟨hwf, hn⟩
  | some k =>
    refine ⟨tableWF_clear s.jobs k hwf, ?_⟩
    have := maxjid_nonneg (Function.update s.jobs k (clearjob (s.jobs k)))
    simp only
    omega

/-- Every table that `addjob` and `deletejob` build from the initial one is
well formed, and `nextjid` stays positive. -/
theorem tableWF_runCalls (cs : List Call) :
    ∀ s : State, TableWF s.jobs → 1 ≤ s.nextjid →
      TableWF (runCalls s cs).jobs ∧ 1 ≤ (runCalls s cs).nextjid := by
  induction cs with
  | nil => intro s h1 h2; exact ⟨h1, h2⟩
  | cons c cs ih =>
    intro s h1 h2
    cases c with
    | add pid state cmdline =>
      obtain ⟨h3, h4⟩ := tableWF_addjob s pid state cmdline h1 h2
      exact ih _ h3 h4
    | del pid =>
      obtain ⟨h3, h4⟩ := tableWF_deletejob s pid h1 h2
      exact ih _ h3 h4

/-! ## Sequences of addjob and deletejob -/

set_option maxRecDepth 100000 in
/-- Claim C1 fails on the code: after filling the table, deleting pids 2 and 3
and adding pids 17 and 18 (every added pid fresh and `>= 1`), slots 0 and 2 are
both occupied and both hold jid 1, because `addjob` wraps `nextjid` to 1 as
soon as it exceeds `MAXJOBS`. -/
theorem addjob_reuses_live_jid :
    freshPids (initState 0) wrapCalls = true ∧
      ((runCalls (initState 0) wrapCalls).jobs 0).pid = 1 ∧
      ((runCalls (initState 0) wrapCalls).jobs 0).jid = 1 ∧
      ((runCalls (initState 0) wrapCalls).jobs 2).pid = 18 ∧
      ((runCalls (initState 0) wrapCalls).jobs 2).jid = 1 ∧
      ¬ JidsDistinct (runCalls (initState 0) wrapCalls).jobs := by
  have h0 : ((runCalls (initState 0) wrapCalls).jobs 0) =
      { pid := 1, jid := 1, state := BG, cmdline := "sleep 9 &\n" } := by decide
  have h2 : ((runCalls (initState 0) wrapCalls).jobs 2) =
      { pid := 18, jid := 1, state := BG, cmdline := "sleep 9 &\n" } := by decide
  refine ⟨by decide, by rw [h0], by rw [h0], by rw [h2], by rw [h2], ?_⟩
  intro h
  have h02 := h 0 2 (by rw [h0]; decide) (by rw [h2]; decide) (by rw [h0, h2])
  exact absurd h02 (by decide)

/-- Claim C2 fails as stated: two `addjob` calls with state `FG` (pids 1 and 2)
leave two occupied slots in state `FG`, so not every sequence of `addjob` and
`deletejob` calls keeps at most one foreground job. -/
theorem two_fg_jobs_counterexample :
    ¬ (∀ cs : List Call, JobCalls cs →
        ∀ k : Nat, AtMostOneFG (runCalls (initState 0) (cs.take k)).jobs) := by
  intro h
  have h2 := h twoFgCalls (by simp [JobCalls, twoFgCalls, FG]) 2
  have h01 := h2 0 1 (by decide) (by decide) (by decide) (by decide)
  exact absurd h01 (by decide)

/-- Claim C2, amended: for every sequence of `addjob` and `deletejob` calls
applied to the initialised job table in which `addjob` is called with state
`FG` only when no occupied slot has state `FG`, at most one occupied slot has
state `FG` after every call. -/
theorem at_most_one_fg (cs : List Call) (hg : FgGuarded (initState 0) cs) (k : Nat) :
    AtMostOneFG (runCalls (initState 0) (cs.take k)).jobs :=
  atMostOneFG_runCalls (cs.take k) (initState 0) (by decide)
    (fgGuarded_take cs (initState 0) k hg)

/-- Witness for `at_most_one_fg`: a foreground job, a background job, the end of
the foreground job and a new foreground job. -/
theorem at_most_one_fg_witness :
    FgGuarded (initState 0)
        [Call.add 5 FG "a\n", Call.add 6 BG "b &\n", Call.del 5, Call.add 7 FG "c\n"] ∧
      AtMostOneFG (runCalls (initState 0)
        ([Call.add 5 FG "a\n", Call.add 6 BG "b &\n", Call.del 5, Call.add 7 FG "c\n"].take 4)).jobs :=
  ⟨by decide, at_most_one_fg _ (by decide) 4⟩

/-! ## The reaper -/

/-- Claim C7 fails on the code: with the job (pid 5, jid 1) in the table, the
status "child 5 was terminated by signal 9" removes the job, but the
notification is printed after `deletejob` has cleared the slot and with a
fixed signal number: it reads `Job [0] (5) terminated by signal 2`. -/
theorem reaper_signaled_prints_cleared_jid :
    (oneFgJob.jobs 0).pid = 5 ∧ (oneFgJob.jobs 0).jid = 1 ∧
      getjobpid (sigchld_handler oneFgJob [(5, wstatus.signaled 9)]).jobs 5 = none ∧
      (sigchld_handler oneFgJob [(5, wstatus.signaled 9)]).out =
        ["Job [0] (5) terminated by signal 2\n"] ∧
      (sigchld_handler oneFgJob [(5, wstatus.signaled 9)]).out ≠
        ["Job [1] (5) terminated by signal 9\n"] := by
  decide

/-- Claim C8 fails on the code: with the job (pid 5, jid 1) in the table, the
status "child 5 was stopped by signal 19" sets the job to `ST` and keeps its
pid, jid and command line, but the notification names signal 20 whatever
signal stopped the child: it reads `Job [1] (5) stopped by signal 20`. -/
theorem reaper_stopped_prints_signal_20 :
    (oneFgJob.jobs 0).pid = 5 ∧ (oneFgJob.jobs 0).jid = 1 ∧
      (sigchld_handler oneFgJob [(5, wstatus.stopped 19)]).jobs 0 =
        { pid := 5, jid := 1, state := ST, cmdline := "sleep 9\n" } ∧
      (sigchld_handler oneFgJob [(5, wstatus.stopped 19)]).out =
        ["Job [1] (5) stopped by signal 20\n"] ∧
      (sigchld_handler oneFgJob [(5, wstatus.stopped 19)]).out ≠
        ["Job [1] (5) stopped by signal 19\n"] := by
  decide

/-- Claim C9 fails on the code: with the job (pid 5) in the table, when
`waitpid` delivers the exit of the untracked pid 7 and then the exit of pid 5,
the reaper logs `((7): No such child`, does not exit the shell, and returns at
once: job 5 is still in the table, although its exit alone would remove it. -/
theorem reaper_returns_at_untracked_pid :
    (sigchld_handler oneFgJob [(7, wstatus.exited 0), (5, wstatus.exited 0)]).out =
        ["((7): No such child"] ∧
      (sigchld_handler oneFgJob [(7, wstatus.exited 0), (5, wstatus.exited 0)]).exited = none ∧
      getjobpid (sigchld_handler oneFgJob [(7, wstatus.exited 0), (5, wstatus.exited 0)]).jobs 5 =
        some 0 ∧
      getjobpid (sigchld_handler oneFgJob [(5, wstatus.exited 0)]).jobs 5 = none := by
  decide

/-! ## The builtin bg and fg commands -/

/-- Claim C10: when the argument of `bg` or `fg` resolves to the job in slot
`jd` (`%<jid>` through `getjobjid`, otherwise `<pid>` through `getjobpid`) and
the `kill` system call succeeds, `do_bgfg` sends `SIGCONT` to `-pid` of that
job, sets its state to `BG` for `bg` and to `FG` for `fg`, keeps its pid, jid
and command line, every other slot and `nextjid`, and prints
`[<jid>] (<pid>) <command_line>` for `bg` and nothing for `fg`. -/
theorem do_bgfg_resumes_job (s : State) (cmd arg : String) (rest : List String)
    (killret : Int) (killerr : String) (jd : Fin MAXJOBS)
    (hcmd : cmd = "bg" ∨ cmd = "fg")
    (hres : (cAt arg 0 = '%' ∧ isdigit (cAt arg 1) = true ∧
          getjobjid s.jobs (atoi (arg.drop 1)) = some jd) ∨
        (cAt arg 0 ≠ '%' ∧ isdigit (cAt arg 0) = true ∧ getjobpid s.jobs (atoi arg) = some jd))
    (hkill : 0 ≤ killret) :
    (do_bgfg s (cmd :: arg :: rest) killret killerr).kills =
        s.kills ++ [(-(s.jobs jd).pid, SIGCONT)] ∧
      (do_bgfg s (cmd :: arg :: rest) killret killerr).jobs jd =
        { pid := (s.jobs jd).pid, jid := (s.jobs jd).jid,
          state := if cmd = "bg" then BG else FG, cmdline := (s.jobs jd).cmdline } ∧
      (∀ j : Fin MAXJOBS, j ≠ jd →
        (do_bgfg s (cmd :: arg :: rest) killret killerr).jobs j = s.jobs j) ∧
      (do_bgfg s (cmd :: arg :: rest) killret killerr).nextjid = s.nextjid ∧
      (do_bgfg s (cmd :: arg :: rest) killret killerr).out =
        (if cmd = "bg" then
          s.out ++ ["[" ++ toString (s.jobs jd).jid ++ "] (" ++ toString (s.jobs jd).pid ++ ") "
            ++ (s.jobs jd).cmdline]
        else s.out) ∧
      (do_bgfg s (cmd :: arg :: rest) killret killerr).exited = s.exited := by
  have hk : ¬ killret < 0 := by omega
  have hresume : do_bgfg s (cmd :: arg :: rest) killret killerr =
      do_bgfg_resume s cmd jd killret killerr := by
    rcases hres with ⟨h1, h2, h3⟩ | ⟨h1, h2, h3⟩
    · simp [do_bgfg, h1, h2, h3]
    · simp [do_bgfg, h1, h2, h3]
  rw [hresume]
  rcases hcmd with hc | hc
  · subst hc
    simp [do_bgfg_resume, Kill, hk]
    intro j hj
    simp [Function.update_noteq hj]
  · subst hc
    simp [do_bgfg_resume, Kill, hk]
    intro j hj
    simp [Function.update_noteq hj]

/-- Witness for `do_bgfg_resumes_job`: `bg %1` on the table holding the stopped
job (pid 5, jid 1). -/
theorem do_bgfg_resumes_job_witness :
    getjobjid oneStoppedJob.jobs (atoi ("%1".drop 1)) = some 0 ∧
      (do_bgfg oneStoppedJob ["bg", "%1"] 0 "").kills = [(-5, SIGCONT)] ∧
      ((do_bgfg oneStoppedJob ["bg", "%1"] 0 "").jobs 0).state = BG ∧
      (do_bgfg oneStoppedJob ["bg", "%1"] 0 "").out = ["[1] (5) sleep 9\n"] := by
  have h := do_bgfg_resumes_job oneStoppedJob "bg" "%1" [] 0 "" 0 (Or.inl rfl)
    (Or.inl ⟨by decide, by decide, by decide⟩) (by decide)
  refine ⟨by decide, ?_, ?_, ?_⟩
  · rw [h.1]; decide
  · rw [h.2.1]; decide
  · rw [h.2.2.2.2.1]; decide

/-- Claim C11 fails as stated: the argument `%1x` is not numeric after its
leading `%`, yet `bg %1x` on the table holding the stopped job (pid 5, jid 1)
sends `SIGCONT` to `-5`, because `do_bgfg` tests only the first character
with `isdigit` and `atoi` reads the digits in front. -/
theorem bgfg_nonnumeric_counterexample :
    ¬ (∀ (s : State) (cmd arg : String) (rest : List String) (killret : Int) (killerr : String),
        (cmd = "bg" ∨ cmd = "fg") → ¬ Numeric (afterPercent arg) →
          (do_bgfg s (cmd :: arg :: rest) killret killerr).out =
              s.out ++ [cmd ++ ": argument must be a pid or %jobid\n"] ∧
            (do_bgfg s (cmd :: arg :: rest) killret killerr).kills = s.kills ∧
            (do_bgfg s (cmd :: arg :: rest) killret killerr).jobs = s.jobs) := by
  intro h
  have h1 := (h oneStoppedJob "bg" "%1x" [] 0 "" (Or.inl rfl) (by decide)).2.1
  have h2 : (do_bgfg oneStoppedJob ["bg", "%1x"] 0 "").kills = [(-5, 18)] := by decide
  rw [h2] at h1
  exact absurd h1 (by decide)

/-- Claim C11, amended: for every job table and every `bg` or `fg` argument
whose first character after an optional leading `%` is not a decimal digit
(the empty argument and a lone `%` included), `do_bgfg` prints
`<cmd>: argument must be a pid or %jobid`, sends no signal and changes no job. -/
theorem do_bgfg_first_char_not_digit (s : State) (cmd arg : String) (rest : List String)
    (killret : Int) (killerr : String)
    (hfirst : isdigit ((afterPercent arg).headD (Char.ofNat 0)) = false) :
    (do_bgfg s (cmd :: arg :: rest) killret killerr).out =
        s.out ++ [cmd ++ ": argument must be a pid or %jobid\n"] ∧
      (do_bgfg s (cmd :: arg :: rest) killret killerr).kills = s.kills ∧
      (do_bgfg s (cmd :: arg :: rest) killret killerr).jobs = s.jobs ∧
      (do_bgfg s (cmd :: arg :: rest) killret killerr).nextjid = s.nextjid := by
  have hres : do_bgfg s (cmd :: arg :: rest) killret killerr =
      { s with out := s.out ++ [cmd ++ ": argument must be a pid or %jobid\n"] } := by
    have hz : isdigit (Char.ofNat 0) = false := by decide
    unfold afterPercent at hfirst
    cases hdata : arg.data with
    | nil =>
      simp [do_bgfg, cAt, hdata, hz]
    | cons c cs =>
      rw [hdata] at hfirst
      by_cases hc : c = '%'
      · subst hc
        cases cs with
        | nil => simp [do_bgfg, cAt, hdata, hz]
        | cons d ds =>
          simp at hfirst
          simp [do_bgfg, cAt, hdata, hfirst]
      · have hfirst2 : isdigit c = false := by
          split at hfirst
          · rename_i heq
            cases heq
            exact absurd rfl hc
          · simpa using hfirst
        simp [do_bgfg, cAt, hdata, hc, hfirst2]
  rw [hres]
  exact ⟨rfl, rfl, rfl, rfl⟩

/-- Witness for `do_bgfg_first_char_not_digit`: `fg %x` on the table holding the
stopped job (pid 5, jid 1). -/
theorem do_bgfg_first_char_not_digit_witness :
    isdigit ((afterPercent "%x").headD (Char.ofNat 0)) = false ∧
      (do_bgfg oneStoppedJob ["fg", "%x"] 0 "").out =
        oneStoppedJob.out ++ ["fg" ++ ": argument must be a pid or %jobid\n"] ∧
      (do_bgfg oneStoppedJob ["fg", "%x"] 0 "").kills = oneStoppedJob.kills ∧
      (do_bgfg oneStoppedJob ["fg", "%x"] 0 "").jobs = oneStoppedJob.jobs ∧
      (do_bgfg oneStoppedJob ["fg", "%x"] 0 "").nextjid = oneStoppedJob.nextjid :=
  ⟨by decide, do_bgfg_first_char_not_digit oneStoppedJob "fg" "%x" [] 0 "" (by decide)⟩

/-! ## bg and fg on a target that does not exist -/

theorem isdigit_toNat {c : Char} (h : isdigit c = true) : 48 ≤ c.toNat ∧ c.toNat ≤ 57 := by
  simp only [isdigit, decide_eq_true_eq] at h
  obtain ⟨h1, h2⟩ := h
  have h1' : ('0' : Char).toNat ≤ c.toNat := h1
  have h2' : c.toNat ≤ ('9' : Char).toNat := h2
  have e1 : ('0' : Char).toNat = 48 := by decide
  have e2 : ('9' : Char).toNat = 57 := by decide
  omega

theorem isspace_of_isdigit {c : Char} (h : isdigit c = true) : isspace c = false := by
  obtain ⟨h1, h2⟩ := isdigit_toNat h
  have hne : c ≠ ' ' := by
    intro hc
    subst hc
    exact absurd h (by decide)
  simp [isspace, hne]
  omega

/-- On a string that starts with a digit and whose digits denote a value below
`2 ^ 31`, `atoi` returns that value. -/
theorem atoi_numeral (str : String) (c : Char) (cs : List Char) (hdata : str.data = c :: cs)
    (hc : isdigit c = true) (hlt : digitsValue (c :: cs) 0 < 2 ^ 31) :
    atoi str = (digitsValue (c :: cs) 0 : Int) := by
  have hsp := isspace_of_isdigit hc
  have hminus : c ≠ '-' := by
    intro h
    subst h
    exact absurd hc (by decide)
  have hplus : c ≠ '+' := by
    intro h
    subst h
    exact absurd hc (by decide)
  have hdrop : List.dropWhile isspace (c :: cs) = c :: cs := by
    simp [List.dropWhile, hsp]
  unfold atoi
  rw [hdata, hdrop]
  have hv : (match c :: cs with
      | '-' :: ds => max (-(digitsValue ds 0 : Int)) (-(2 ^ 63))
      | '+' :: ds => min (digitsValue ds 0 : Int) (2 ^ 63 - 1)
      | ds => min (digitsValue ds 0 : Int) (2 ^ 63 - 1)) =
      min (digitsValue (c :: cs) 0 : Int) (2 ^ 63 - 1) := by
    split
    · rename_i heq
      cases heq
      exact absurd rfl hminus
    · rename_i heq
      cases heq
      exact absurd rfl hplus
    · rfl
  simp only [hv]
  have h0 : (0 : Int) ≤ (digitsValue (c :: cs) 0 : Int) := Int.ofNat_nonneg _
  have h1 : (digitsValue (c :: cs) 0 : Int) < 2 ^ 31 := by exact_mod_cast hlt
  rw [min_eq_left (by omega)]
  omega

theorem firstSlot_eq_none {c : job_t → Bool} {jobs : Fin MAXJOBS → job_t}
    (h : ∀ j : Fin MAXJOBS, c (jobs j) = false) : firstSlot c jobs = none := by
  cases hk : firstSlot c jobs with
  | none => rfl
  | some k =>
    have := (firstSlot_some hk).1
    rw [h k] at this
    cases this

/-- Claim C12 fails as stated: on the table holding only the stopped job
(pid 5, jid 1) no occupied slot has jid 4294967297, yet `bg %4294967297` prints
no `no such job` message and sends `SIGCONT` to `-5`, because `atoi` truncates
the value to the 32 bits of an `int` and `getjobjid` is asked for jid 1. -/
theorem bgfg_no_such_job_counterexample :
    ¬ (∀ (s : State) (cmd arg : String) (rest : List String) (killret : Int) (killerr : String)
        (ds : List Char) (n : Nat), Numeric ds → digitsValue ds 0 = n →
        arg.data = '%' :: ds →
        (∀ i : Fin MAXJOBS, (s.jobs i).pid = 0 → (s.jobs i).jid = 0) →
        (∀ i : Fin MAXJOBS, (s.jobs i).pid ≠ 0 → (s.jobs i).jid ≠ (n : Int)) →
          (do_bgfg s (cmd :: arg :: rest) killret killerr).out =
              s.out ++ [arg ++ ": no such job\n"] ∧
            (do_bgfg s (cmd :: arg :: rest) killret killerr).kills = s.kills ∧
            (do_bgfg s (cmd :: arg :: rest) killret killerr).jobs = s.jobs ∧
            (do_bgfg s (cmd :: arg :: rest) killret killerr).nextjid = s.nextjid) := by
  intro h
  have h1 := (h oneStoppedJob "bg" "%4294967297" [] 0 ""
    ['4', '2', '9', '4', '9', '6', '7', '2', '9', '7'] 4294967297
    (by decide) (by decide) (by decide) (by decide) (by decide)).2.1
  have h2 : (do_bgfg oneStoppedJob ["bg", "%4294967297"] 0 "").kills = [(-5, 18)] := by decide
  rw [h2] at h1
  exact absurd h1 (by decide)

/-- Claim C12, amended: when the argument of `bg` or `fg` is `%<n>` or `<n>`
with `<n>` a non-empty string of decimal digits `ds` whose value `n` fits a C
`int` (`n < 2 ^ 31`): if it is `%<n>` and no occupied slot has jid `n` (free
slots being cleared to jid 0, so `n = 0` matches nothing), `do_bgfg` prints
`%<n>: no such job`; if it is `<n>` and no occupied slot has pid `n`, it
prints `(<n>): no such process`; in both cases it sends no signal and leaves
every slot and `nextjid` unchanged. -/
theorem do_bgfg_no_such_target (s : State) (cmd arg : String) (rest : List String)
    (killret : Int) (killerr : String) (ds : List Char) (n : Nat)
    (hnum : Numeric ds) (hval : digitsValue ds 0 = n) (hint : n < 2 ^ 31) :
    (arg.data = '%' :: ds →
      (∀ i : Fin MAXJOBS, (s.jobs i).pid = 0 → (s.jobs i).jid = 0) →
      (∀ i : Fin MAXJOBS, (s.jobs i).pid ≠ 0 → (s.jobs i).jid ≠ (n : Int)) →
        (do_bgfg s (cmd :: arg :: rest) killret killerr).out =
            s.out ++ [arg ++ ": no such job\n"] ∧
          (do_bgfg s (cmd :: arg :: rest) killret killerr).kills = s.kills ∧
          (do_bgfg s (cmd :: arg :: rest) killret killerr).jobs = s.jobs ∧
          (do_bgfg s (cmd :: arg :: rest) killret killerr).nextjid = s.nextjid) ∧
      (arg.data = ds →
        (∀ i : Fin MAXJOBS, (s.jobs i).pid ≠ 0 → (s.jobs i).pid ≠ (n : Int)) →
          (do_bgfg s (cmd :: arg :: rest) killret killerr).out =
              s.out ++ ["(" ++ arg ++ "): no such process\n"] ∧
            (do_bgfg s (cmd :: arg :: rest) killret killerr).kills = s.kills ∧
            (do_bgfg s (cmd :: arg :: rest) killret killerr).jobs = s.jobs ∧
            (do_bgfg s (cmd :: arg :: rest) killret killerr).nextjid = s.nextjid) := by
  obtain ⟨hne, hall⟩ := hnum
  cases ds with
  | nil => exact absurd rfl hne
  | cons c cs =>
    have hc : isdigit c = true := hall c (List.mem_cons_self c cs)
    have hcne : c ≠ '%' := by
      intro h
      subst h
      exact absurd hc (by decide)
    constructor
    · intro hdata hfree hjid
      have hatoi : atoi (arg.drop 1) = (n : Int) := by
        rw [← hval]
        exact atoi_numeral (arg.drop 1) c cs (by simp [hdata]) hc (by rw [hval]; exact hint)
      have hnone : getjobjid s.jobs (n : Int) = none := by
        unfold getjobjid
        split
        · rfl
        · rename_i hn1
          apply firstSlot_eq_none
          intro j
          by_cases hp : (s.jobs j).pid = 0
          · have := hfree j hp
            simp only [beq_eq_false_iff_ne, ne_eq]
            omega
          · simpa using hjid j hp
      have hres : do_bgfg s (cmd :: arg :: rest) killret killerr =
          { s with out := s.out ++ [arg ++ ": no such job\n"] } := by
        simp [do_bgfg, cAt, hdata, hc, hatoi, hnone]
      rw [hres]
      exact ⟨rfl, rfl, rfl, rfl⟩
    · intro hdata hpid
      have hatoi : atoi arg = (n : Int) := by
        rw [← hval]
        exact atoi_numeral arg c cs hdata hc (by rw [hval]; exact hint)
      have hnone : getjobpid s.jobs (n : Int) = none := by
        unfold getjobpid
        split
        · rfl
        · rename_i hn1
          apply firstSlot_eq_none
          intro j
          by_cases hp : (s.jobs j).pid = 0
          · simp only [beq_eq_false_iff_ne, ne_eq]
            omega
          · simpa using hpid j hp
      have hres : do_bgfg s (cmd :: arg :: rest) killret killerr =
          { s with out := s.out ++ ["(" ++ arg ++ "): no such process\n"] } := by
        simp [do_bgfg, cAt, hdata, hc, hcne, hatoi, hnone]
      rw [hres]
      exact ⟨rfl, rfl, rfl, rfl⟩

/-- Witness for `do_bgfg_no_such_target`: `bg %99` on the table holding only the
stopped job (pid 5, jid 1) prints `%99: no such job`. -/
theorem do_bgfg_no_such_target_witness :
    Numeric ['9', '9'] ∧ digitsValue ['9', '9'] 0 = 99 ∧
      (∀ i : Fin MAXJOBS, (oneStoppedJob.jobs i).pid = 0 → (oneStoppedJob.jobs i).jid = 0) ∧
      (∀ i : Fin MAXJOBS, (oneStoppedJob.jobs i).pid ≠ 0 → (oneStoppedJob.jobs i).jid ≠ 99) ∧
      (do_bgfg oneStoppedJob ["bg", "%99"] 0 "").out =
        oneStoppedJob.out ++ ["%99" ++ ": no such job\n"] ∧
      (do_bgfg oneStoppedJob ["bg", "%99"] 0 "").kills = oneStoppedJob.kills ∧
      (do_bgfg oneStoppedJob ["bg", "%99"] 0 "").jobs = oneStoppedJob.jobs ∧
      (do_bgfg oneStoppedJob ["bg", "%99"] 0 "").nextjid = oneStoppedJob.nextjid :=
  ⟨by decide, by decide, by decide, by decide,
    (do_bgfg_no_such_target oneStoppedJob "bg" "%99" [] 0 "" ['9', '9'] 99
      (by decide) (by decide) (by decide)).1 (by decide) (by decide) (by decide)⟩

/-! ## The round trip: background job, fg, normal exit -/

theorem initState_firstFree (v : Int) :
    firstSlot (fun j => j.pid == 0) (initState v).jobs = some 0 := by
  rfl

theorem addjob_initState (v pid state : Int) (cmdline : String) (hpid : 1 ≤ pid) :
    (addjob (initState v) pid state cmdline).1 =
      { initState v with
        jobs := Function.update (initState v).jobs 0
          { pid := pid, jid := 1, state := state, cmdline := cmdline },
        nextjid := 2,
        out := if v ≠ 0 then
            ["Added job [" ++ toString (1 : Int) ++ "] " ++ toString pid ++ " " ++ cmdline ++ "\n"]
          else [] } := by
  have hp : ¬ pid < 1 := by omega
  unfold addjob
  rw [if_neg hp, initState_firstFree]
  simp [initState]

theorem roundTripFg_eq (v pid : Int) (cmdline : String) (killret : Int) (killerr : String)
    (hpid : 1 ≤ pid) (hkill : 0 ≤ killret) :
    roundTripFg v pid cmdline killret killerr =
      { (addjob (initState v) pid BG cmdline).1 with
        jobs := Function.update (initState v).jobs 0
          { pid := pid, jid := 1, state := FG, cmdline := cmdline },
        kills := [(-pid, SIGCONT)] } := by
  have hk : ¬ killret < 0 := by omega
  have hjid : getjobjid (addjob (initState v) pid BG cmdline).1.jobs 1 = some 0 := by
    rw [addjob_initState v pid BG cmdline hpid]
    simp [getjobjid, firstSlot, firstSlotFrom]
  have hatoi : atoi ("%1".drop 1) = 1 := by decide
  have h0 : cAt "%1" 0 = '%' := by decide
  have h1 : isdigit (cAt "%1" 1) = true := by decide
  have hfg : ("fg" == "bg") = false := by decide
  unfold roundTripFg
  simp only [do_bgfg, h0, h1, hatoi, hjid, do_bgfg_resume, Kill, hk, hfg]
  rw [addjob_initState v pid BG cmdline hpid]
  simp [initState]

theorem initState_jobs (v : Int) (i : Fin MAXJOBS) :
    (initState v).jobs i = { pid := 0, jid := 0, state := UNDEF, cmdline := "" } := by
  rfl

theorem maxjid_initState (v : Int) : maxjid (initState v).jobs = 0 := by
  rfl

/-- Claim C13: from the initialised job table, `addjob(pid, BG, cmdline)` with
`pid >= 1`, then `fg %1` (with a successful `kill`), which sets the job to
`FG`, then the reaper processing the normal exit of `pid` with any exit code,
leaves every slot cleared and the table equal to the initialised one, with
`nextjid = 1`, and the reaper prints nothing. -/
theorem round_trip_bg_fg_exit (v pid : Int) (cmdline : String) (code killret : Int)
    (killerr : String) (hpid : 1 ≤ pid) (hkill : 0 ≤ killret) :
    (roundTripFg v pid cmdline killret killerr).jobs 0 =
        { pid := pid, jid := 1, state := FG, cmdline := cmdline } ∧
      (∀ i : Fin MAXJOBS, (roundTripExit v pid cmdline killret killerr code).jobs i =
        { pid := 0, jid := 0, state := UNDEF, cmdline := "" }) ∧
      (roundTripExit v pid cmdline killret killerr code).jobs = (initState v).jobs ∧
      (roundTripExit v pid cmdline killret killerr code).nextjid = 1 ∧
      (roundTripExit v pid cmdline killret killerr code).nextjid = (initState v).nextjid ∧
      (roundTripExit v pid cmdline killret killerr code).out =
        (roundTripFg v pid cmdline killret killerr).out := by
  have hp : ¬ pid < 1 := by omega
  have hpos : pid > 0 := by omega
  have hfg := roundTripFg_eq v pid cmdline killret killerr hpid hkill
  have hget : getjobpid (roundTripFg v pid cmdline killret killerr).jobs pid = some 0 := by
    rw [hfg]
    simp [getjobpid, firstSlot, firstSlotFrom, hp]
  have hclear : Function.update (roundTripFg v pid cmdline killret killerr).jobs 0
      (clearjob ((roundTripFg v pid cmdline killret killerr).jobs 0)) = (initState v).jobs := by
    rw [hfg]
    funext i
    by_cases hi : i = 0
    · subst hi
      simp [clearjob, initState_jobs]
    · simp [Function.update_noteq hi]
  have hexit : roundTripExit v pid cmdline killret killerr code =
      { roundTripFg v pid cmdline killret killerr with
        jobs := (initState v).jobs, nextjid := 1 } := by
    unfold roundTripExit
    simp only [sigchld_handler, hpos, if_true, hget, deletejob_eq, hclear, maxjid_initState]
    rfl
  refine ⟨by rw [hfg]; simp, ?_, ?_, ?_, ?_, ?_⟩
  · intro i
    rw [hexit]
    exact initState_jobs v i
  · rw [hexit]
  · rw [hexit]
  · rw [hexit]; rfl
  · rw [hexit]

/-- Witness for `round_trip_bg_fg_exit`: the job `sleep 1 &` with pid 5 and exit
code 0. -/
theorem round_trip_bg_fg_exit_witness :
    (roundTripFg 0 5 "sleep 1 &\n" 0 "").jobs 0 =
        { pid := 5, jid := 1, state := FG, cmdline := "sleep 1 &\n" } ∧
      (roundTripExit 0 5 "sleep 1 &\n" 0 "" 0).jobs = (initState 0).jobs ∧
      (roundTripExit 0 5 "sleep 1 &\n" 0 "" 0).nextjid = 1 ∧
      (roundTripExit 0 5 "sleep 1 &\n" 0 "" 0).out = (roundTripFg 0 5 "sleep 1 &\n" 0 "").out :=
  have h := round_trip_bg_fg_exit 0 5 "sleep 1 &\n" 0 0 "" (by decide) (by decide)
  ⟨h.1, h.2.2.1, h.2.2.2.1, h.2.2.2.2.2⟩

/-! ## The background branch of eval -/

/-- When the table has a free slot and `pid >= 1`, the lookup that follows
`addjob` finds a job holding `pid`. -/
theorem getjobpid_after_addjob (s : State) (pid state : Int) (cmdline : String)
    (hfree : ∃ i, (s.jobs i).pid = 0) (hpid : 1 ≤ pid) :
    ∃ jd : Fin MAXJOBS, getjobpid (addjob s pid state cmdline).1.jobs pid = some jd ∧
      ((addjob s pid state cmdline).1.jobs jd).pid = pid := by
  have hslot : ∃ i : Fin MAXJOBS, ((addjob s pid state cmdline).1.jobs i).pid = pid := by
    obtain ⟨i, hi⟩ := @firstSlot_exists (fun j => j.pid == 0) s.jobs
      (by obtain ⟨i, hi⟩ := hfree; exact ⟨i, by simp [hi]⟩)
    have hp : ¬ pid < 1 := by omega
    refine ⟨i, ?_⟩
    simp [addjob, hp, hi]
  obtain ⟨i, hi⟩ := hslot
  obtain ⟨jd, hjd⟩ := getjobpid_of_slot hpid i hi
  exact ⟨jd, hjd, (getjobpid_some hjd).2.1⟩

set_option maxRecDepth 100000 in
/-- Claim C14 fails on the code: on the table filled by sixteen jobs, with the
fresh pid 17, `addjob` returns 0 without storing the job, the lookup
`getjobpid(jobs, 17)` that follows returns `NULL`, and the background branch
of `eval` dereferences it. -/
theorem eval_background_null_on_full_table :
    (∀ i : Fin MAXJOBS, (fullTable.jobs i).pid ≠ 0) ∧
      (addjob fullTable 17 BG "ls &\n").2 = 0 ∧
      getjobpid (addjob fullTable 17 BG "ls &\n").1.jobs 17 = none ∧
      (eval_background fullTable 17 "ls &\n").isNone = true := by
  have h1 : ∀ i : Fin MAXJOBS, (fullTable.jobs i).pid ≠ 0 := by decide
  have h2 : (addjob fullTable 17 BG "ls &\n").2 = 0 := by decide
  have h3 : getjobpid (addjob fullTable 17 BG "ls &\n").1.jobs 17 = none := by decide
  refine ⟨h1, h2, h3, ?_⟩
  unfold eval_background
  simp only [h3]
  rfl

end Tsh
